import Mathlib

/-!
# Verification of the `ecpair` signer core

Shallow embedding of the `ecpair` repository (TypeScript) in Lean 4.

Conventions of the embedding:
* A `Uint8Array` is modelled as a `List Nat`; the elements of a genuine
  `Uint8Array` are bytes (`< 256`), which is carried as a hypothesis where a
  proof needs it.
* A JavaScript `bigint` is modelled as `Nat` (all bigints appearing in this
  code are non-negative).
* A function that can `throw` is modelled with `Except String`; the carried
  string is the error message of the source (interpolated byte counts are
  dropped from the messages).
* `undefined` / optional values are modelled with `Option`.
* The elliptic-curve backend (`CryptoBackend`) is a record of functions, as in
  `src/backend.ts`; the curve arithmetic itself lives in the external
  `@noble/curves` collaborator and is modelled axiomatically by a `SecpModel`
  (see below), never by re-implementing the curve.
-/

namespace ECPair

/-! ## Byte utilities (from `src/types.ts` and the noble adapter) -/

/-- Embedding of `bytesToBigInt` from `src/types.ts` (and the identical copy in the noble
adapter): `result = (result << 8n) | BigInt(bytes[i])`, folded over the
bytes. -/
def bytesToBigInt (bytes : List Nat) : Nat :=
  bytes.foldl (fun result b => (result <<< 8) ||| b) 0

/-- Big-endian digits of `m` in base 256, `k` digits, most significant first.
`digitsBE k m` has `i`-th element `m / 256 ^ (k - 1 - i) % 256`. -/
def digitsBE : Nat → Nat → List Nat
  | 0, _ => []
  | k + 1, m => (m / 256 ^ k % 256) :: digitsBE k m

/-- Embedding of `bigintToBytes32` from the noble adapter: the 32-byte big-endian encoding
of `n`.  The source builds the same bytes by slicing the 64-character
zero-padded hex string of `n`: character pair `i` of that string is exactly
the base-256 digit `n / 256 ^ (31 - i) % 256`. -/
def bigintToBytes32 (n : Nat) : List Nat :=
  digitsBE 32 n

/-- Embedding of `isZeroBytes` from `src/types.ts`. -/
def isZeroBytes (bytes : List Nat) : Bool :=
  bytes.all (· == 0)

/-- Embedding of `concatBytes` from `src/types.ts` (restricted to two arguments, the only
arity the signer core uses). -/
def concatBytes (a b : List Nat) : List Nat :=
  a ++ b

/-- secp256k1 curve order (`EC_N` in `src/types.ts`). -/
def EC_N : Nat :=
  0xfffffffffffffffffffffffffffffffebaaedce6af48a03bbfd25e8cd0364141

/-! ### Arithmetic facts about the byte conversions -/

theorem shiftLeft_lor_byte (r b : Nat) (hb : b < 256) :
    (r <<< 8) ||| b = 256 * r + b := by
  have h : 2 ^ 8 * r + b = 2 ^ 8 * r ||| b :=
    Nat.mul_add_lt_is_or (by simpa using hb) r
  rw [Nat.shiftLeft_eq, mul_comm, ← h]
  norm_num

theorem digitsBE_length (k m : Nat) : (digitsBE k m).length = k := by
  induction k generalizing m with
  | zero => rfl
  | succ k ih => simp [digitsBE, ih]

theorem digitsBE_lt (k m : Nat) : ∀ b ∈ digitsBE k m, b < 256 := by
  induction k generalizing m with
  | zero => simp [digitsBE]
  | succ k ih =>
    intro b hb
    simp only [digitsBE, List.mem_cons] at hb
    rcases hb with rfl | hb
    · exact Nat.mod_lt _ (by norm_num)
    · exact ih m b hb

theorem foldl_digitsBE (k m acc : Nat) :
    (digitsBE k m).foldl (fun result b => (result <<< 8) ||| b) acc
      = acc * 256 ^ k + m % 256 ^ k := by
  induction k generalizing acc with
  | zero => simp [digitsBE, Nat.mod_one]
  | succ k ih =>
    have hd : m / 256 ^ k % 256 < 256 := Nat.mod_lt _ (by norm_num)
    simp only [digitsBE, List.foldl_cons]
    rw [ih, shiftLeft_lor_byte _ _ hd]
    have hsplit : m % 256 ^ (k + 1) = 256 ^ k * (m / 256 ^ k % 256) + m % 256 ^ k := by
      rw [pow_succ, Nat.mod_mul]
      ring
    rw [hsplit]
    ring

theorem bytesToBigInt_digitsBE (k m : Nat) :
    bytesToBigInt (digitsBE k m) = m % 256 ^ k := by
  simpa using foldl_digitsBE k m 0

theorem bytesToBigInt_bigintToBytes32 (m : Nat) (hm : m < 256 ^ 32) :
    bytesToBigInt (bigintToBytes32 m) = m := by
  rw [bigintToBytes32, bytesToBigInt_digitsBE, Nat.mod_eq_of_lt hm]

theorem EC_N_lt : EC_N < 256 ^ 32 := by norm_num [EC_N]

/-! ## Validated byte types (from `src/types.ts`)

The `instanceof Uint8Array` guards of the source cannot fail in this
embedding, where the input type is already a byte list. -/

/-- Embedding of `isPrivateKey` from `src/types.ts`. -/
def isPrivateKey (value : List Nat) : Bool :=
  if value.length != 32 then false
  else if isZeroBytes value then false
  else decide (bytesToBigInt value < EC_N)

/-- Embedding of `assertPrivateKey` from `src/types.ts`; `.ok ()` models a normal return,
`.error` models a thrown `TypeError`. -/
def assertPrivateKey (value : List Nat) : Except String Unit :=
  if value.length != 32 then
    .error "assertPrivateKey: expected 32 bytes"
  else if isZeroBytes value then
    .error "assertPrivateKey: key is zero"
  else if EC_N ≤ bytesToBigInt value then
    .error "assertPrivateKey: key not in range [1, n)"
  else
    .ok ()

/-- Embedding of `createPrivateKey` from `src/types.ts`. -/
def createPrivateKey (bytes : List Nat) : Except String (List Nat) :=
  (assertPrivateKey bytes).map fun _ => bytes

/-- Embedding of `isPublicKey` from `src/types.ts`. -/
def isPublicKey (value : List Nat) : Bool :=
  let pfx := value.head?
  if value.length == 33 && (pfx == some 0x02 || pfx == some 0x03) then true
  else if value.length == 65 && (pfx == some 0x04 || pfx == some 0x06 || pfx == some 0x07) then
    true
  else false

/-- Embedding of `assertPublicKey` from `src/types.ts`. -/
def assertPublicKey (value : List Nat) : Except String Unit :=
  if isPublicKey value then .ok ()
  else .error "assertPublicKey: invalid SEC1 public key"

/-- Embedding of `createPublicKey` from `src/types.ts`. -/
def createPublicKey (bytes : List Nat) : Except String (List Nat) :=
  (assertPublicKey bytes).map fun _ => bytes

/-! ## Networks (from the network table module)

Only the fields the signer core reads are modelled; `messagePrefix`, `bech32`
and the `bip32` versions are never consumed by the claims under study. -/

structure Network where
  pubKeyHash : Nat
  scriptHash : Nat
  wif : Nat
deriving DecidableEq, Repr

namespace networks

def bitcoin : Network := { pubKeyHash := 0x00, scriptHash := 0x05, wif := 0x80 }

def testnet : Network := { pubKeyHash := 0x6f, scriptHash := 0xc4, wif := 0xef }

end networks

/-! ## SignerCapability (from `src/capability.ts`) -/

namespace SignerCapability

def EcdsaSign : Nat := 0

def EcdsaVerify : Nat := 1

def SchnorrSign : Nat := 2

def SchnorrVerify : Nat := 3

def PrivateKeyExport : Nat := 4

def PublicKeyTweak : Nat := 5

def HdDerivation : Nat := 6

end SignerCapability

/-! ## CryptoBackend (from `src/backend.ts`)

The optional `compressed?` parameters default to `true` inside the adapters;
the signer core always passes them explicitly, so they are modelled as plain
`Bool`.  `xOnlyPointAddTweak` returns `(parity, xOnlyPubkey)`.
`generatePrivateKey` is an optional nullary function, modelled by the value it
would return. -/

structure CryptoBackend where
  isPrivate : List Nat → Bool
  isPoint : List Nat → Bool
  pointFromScalar : List Nat → Bool → Option (List Nat)
  pointCompress : List Nat → Bool → List Nat
  pointAddScalar : List Nat → List Nat → Bool → Option (List Nat)
  xOnlyPointAddTweak : List Nat → List Nat → Option (Nat × List Nat)
  privateAdd : List Nat → List Nat → Option (List Nat)
  privateNegate : List Nat → List Nat
  sign : List Nat → List Nat → Option (List Nat) → List Nat
  verify : List Nat → List Nat → List Nat → Bool
  signSchnorr : Option (List Nat → List Nat → Option (List Nat) → List Nat)
  verifySchnorr : Option (List Nat → List Nat → List Nat → Bool)
  generatePrivateKey : Option (List Nat)

/-! ## Signer core (from `src/signer.ts`) -/

/-- Embedding of `SignerOptions`: both fields optional. -/
structure SignerOptions where
  compressed : Option Bool
  network : Option Network

/-- An omitted `options?` argument. -/
def noOptions : SignerOptions :=
  { compressed := none, network := none }

/-- Embedding of `RandomSignerOptions`.  The caller-supplied `rng` is impure in the source
(successive calls may differ); it is modelled as the stream of its return
values, indexed by call number.  The source always calls it with size 32. -/
structure RandomSignerOptions where
  compressed : Option Bool
  network : Option Network
  rng : Option (Nat → List Nat)

def RandomSignerOptions.toSignerOptions (o : RandomSignerOptions) : SignerOptions :=
  { compressed := o.compressed, network := o.network }

/-- Embedding of `toXOnly` from `src/signer.ts`: `pubKey.length === 32 ? pubKey :
pubKey.subarray(1, 33)`. -/
def toXOnly (pubKey : List Nat) : List Nat :=
  if pubKey.length == 32 then pubKey else (pubKey.drop 1).take 32

/-- The state of an `ECPairSigner` instance.  `storedPublicKey` is the
`#publicKey` field as set by the private constructor (the lazy cache written
by the `publicKey` getter is dropped: the getter is pure, so caching is not
observable). -/
structure ECPairSigner where
  backend : CryptoBackend
  privateKey : Option (List Nat)
  network : Network
  compressed : Bool
  storedPublicKey : Option (List Nat)

namespace ECPairSigner

/-- The private constructor of `ECPairSigner`. -/
def make (backend : CryptoBackend) (privateKey : Option (List Nat))
    (publicKey : Option (List Nat)) (options : SignerOptions) : ECPairSigner :=
  let compressed := options.compressed.getD true
  { backend := backend
    privateKey := privateKey
    network := options.network.getD networks.bitcoin
    compressed := compressed
    storedPublicKey := publicKey.map fun p => backend.pointCompress p compressed }

/-- The `publicKey` getter. -/
def publicKeyE (s : ECPairSigner) : Except String (List Nat) :=
  match s.storedPublicKey with
  | some p => .ok p
  | none =>
    match s.privateKey with
    | none => .error "Missing both private and public key"
    | some pk =>
      match s.backend.pointFromScalar pk s.compressed with
      | none => .error "Failed to derive public key from private key"
      | some p => .ok p

/-- The `xOnlyPublicKey` getter. -/
def xOnlyPublicKeyE (s : ECPairSigner) : Except String (List Nat) :=
  (s.publicKeyE).map toXOnly

/-- Embedding of `ECPairSigner.fromPrivateKey`. -/
def fromPrivateKey (backend : CryptoBackend) (privateKey : List Nat)
    (options : SignerOptions) : Except String ECPairSigner :=
  if backend.isPrivate privateKey then
    .ok (make backend (some privateKey) none options)
  else
    .error "Private key not in range [1, n)"

/-- Embedding of `ECPairSigner.fromPublicKey`. -/
def fromPublicKey (backend : CryptoBackend) (publicKey : List Nat)
    (options : SignerOptions) : Except String ECPairSigner :=
  if backend.isPoint publicKey then
    .ok (make backend none (some publicKey) options)
  else
    .error "Point not on the curve"

end ECPairSigner

/-- The 32-byte extra-entropy buffer of low-R grinding: all zero except the
first 4 bytes, which hold the counter as a 32-bit little-endian integer
(`view.setUint32(0, counter, true)`). -/
def lowREntropy (counter : Nat) : List Nat :=
  [counter % 256, counter / 256 % 256, counter / 256 ^ 2 % 256, counter / 256 ^ 3 % 256]
    ++ List.replicate 28 0

/-- The continuation condition of the grinding loop:
`sig[0] !== undefined && sig[0] > 0x7f`. -/
def sigNeedsGrind (sig : List Nat) : Bool :=
  match sig.head? with
  | some b => decide (0x7f < b)
  | none => false

/-- The `while` loop of `sign` with `lowR`, with an explicit fuel bound (the
source loop is unbounded); `none` models non-termination within `fuel`
re-sign attempts.  `f` is `(e) => backend.sign(hash, privateKey, e)`. -/
def grindGo (f : Option (List Nat) → List Nat) :
    Nat → Nat → List Nat → Option (List Nat)
  | 0, _, sig => if sigNeedsGrind sig then none else some sig
  | fuel + 1, counter, sig =>
    if sigNeedsGrind sig then
      grindGo f fuel (counter + 1) (f (some (lowREntropy (counter + 1))))
    else
      some sig

namespace ECPairSigner

/-- The `capabilities` getter, as the list of added capability values in
insertion order (the source `Set` contains exactly these, all distinct). -/
def capabilities (s : ECPairSigner) : List Nat :=
  [SignerCapability.EcdsaVerify, SignerCapability.PublicKeyTweak]
    ++ (if s.privateKey.isSome then
          [SignerCapability.EcdsaSign, SignerCapability.PrivateKeyExport]
        else [])
    ++ (if s.backend.signSchnorr.isSome && s.privateKey.isSome then
          [SignerCapability.SchnorrSign]
        else [])
    ++ (if s.backend.verifySchnorr.isSome then
          [SignerCapability.SchnorrVerify]
        else [])

/-- Embedding of `hasCapability`. -/
def hasCapability (s : ECPairSigner) (cap : Nat) : Bool :=
  (capabilities s).contains cap

/-- Embedding of `ECPairSigner.sign`.  `lowR : Option Bool` models the optional boolean
parameter; the result is `.ok none` when the grinding loop exceeds `fuel`
attempts. -/
def sign (s : ECPairSigner) (hash : List Nat) (lowR : Option Bool) (fuel : Nat) :
    Except String (Option (List Nat)) :=
  match s.privateKey with
  | none => .error "Missing private key"
  | some d =>
    match lowR with
    | some true =>
      .ok (grindGo (fun e => s.backend.sign hash d e) fuel 0 (s.backend.sign hash d none))
    | _ => .ok (some (s.backend.sign hash d none))

/-- Embedding of `#tweakFromPrivateKey`. -/
def tweakFromPrivateKey (s : ECPairSigner) (t : List Nat) : Except String ECPairSigner := do
  let pubKey ← s.publicKeyE
  match s.privateKey with
  | none => .error "Missing private key"
  | some privateKey =>
    let hasOddY :=
      pubKey.head? == some 3
        || (pubKey.head? == some 4 && pubKey.length == 65
              && ((pubKey.getD 64 0) &&& 1 == 1))
    let effectiveKey := if hasOddY then s.backend.privateNegate privateKey else privateKey
    match s.backend.privateAdd effectiveKey t with
    | none => .error "Invalid tweaked private key!"
    | some tweakedPrivateKey =>
      fromPrivateKey s.backend tweakedPrivateKey
        { compressed := some s.compressed, network := some s.network }

/-- Embedding of `#tweakFromPublicKey`.  The source also guards against
`tweakedPublicKey.xOnlyPubkey === null`, which has no counterpart in the
`Option`-typed backend result. -/
def tweakFromPublicKey (s : ECPairSigner) (t : List Nat) : Except String ECPairSigner := do
  let xOnlyPubKey ← s.xOnlyPublicKeyE
  match s.backend.xOnlyPointAddTweak xOnlyPubKey t with
  | none => .error "Cannot tweak public key!"
  | some (parity, xOnlyPubkey) =>
    let parityByte := if parity == 0 then 0x02 else 0x03
    let fullKey := concatBytes [parityByte] xOnlyPubkey
    let pk ← createPublicKey fullKey
    fromPublicKey s.backend pk { compressed := some s.compressed, network := some s.network }

/-- Embedding of `ECPairSigner.tweak`. -/
def tweak (s : ECPairSigner) (t : List Nat) : Except String ECPairSigner :=
  match s.privateKey with
  | some _ => tweakFromPrivateKey s t
  | none => tweakFromPublicKey s t

/-- The rejection-sampling loop of `makeRandom` (`do … while
(!backend.isPrivate(privateKeyBytes))`), with fuel; `rng i` is the value of
the `i`-th call `rng(32)`. -/
def makeRandomLoop (backend : CryptoBackend) (rng : Nat → List Nat) :
    Nat → Nat → Option (Except String (List Nat))
  | 0, _ => none
  | fuel + 1, i =>
    if (rng i).length != 32 then
      some (.error "Expected 32 bytes from rng")
    else if backend.isPrivate (rng i) then
      some (.ok (rng i))
    else
      makeRandomLoop backend rng fuel (i + 1)

/-- Embedding of `ECPairSigner.makeRandom`.  `sysRng` models the default
`crypto.getRandomValues` source, used only when the caller supplies no `rng`
(and the backend has no `generatePrivateKey`). -/
def makeRandom (backend : CryptoBackend) (options : RandomSignerOptions)
    (sysRng : Nat → List Nat) (fuel : Nat) : Option (Except String ECPairSigner) :=
  match backend.generatePrivateKey, options.rng with
  | some g, none =>
    some (do
      let k ← createPrivateKey g
      fromPrivateKey backend k options.toSignerOptions)
  | _, _ =>
    (makeRandomLoop backend (options.rng.getD sysRng) fuel 0).map fun r => do
      let privateKeyBytes ← r
      let k ← createPrivateKey privateKeyBytes
      fromPrivateKey backend k options.toSignerOptions

end ECPairSigner

/-! ## WIF import (from the WIF wrapper module)

The base58-check codec itself (`wif.decode`) is an external collaborator;
`WifRaw` is its decoded output `{version, privateKey, compressed}`. -/

structure WifRaw where
  version : Nat
  privateKey : List Nat
  compressed : Bool

structure WifDecodeResult where
  privateKey : List Nat
  compressed : Bool
  network : Network

/-- The `Network | readonly Network[]` argument, distinguished by
`Array.isArray`. -/
inductive NetworkArg where
  | single : Network → NetworkArg
  | list : List Network → NetworkArg

/-- Embedding of `decodeWIF` from the WIF wrapper module, starting after the external
`wif.decode(wifString)` call whose output is `decoded`. -/
def decodeWIF (decoded : WifRaw) (network : NetworkArg) : Except String WifDecodeResult :=
  match network with
  | .list nets =>
    match nets.find? (fun nw => nw.wif == decoded.version) with
    | none => .error "Unknown network version"
    | some matched => do
      let k ← createPrivateKey decoded.privateKey
      .ok { privateKey := k, compressed := decoded.compressed, network := matched }
  | .single net =>
    if decoded.version != net.wif then
      .error "Invalid network version"
    else do
      let k ← createPrivateKey decoded.privateKey
      .ok { privateKey := k, compressed := decoded.compressed, network := net }

/-- Embedding of `ECPairSigner.fromWIF`, starting after the external `wif.decode`. -/
def ECPairSigner.fromWIF (backend : CryptoBackend) (decoded : WifRaw)
    (network : Option NetworkArg) : Except String ECPairSigner := do
  let defaultNetwork := network.getD (.single networks.bitcoin)
  let r ← decodeWIF decoded defaultNetwork
  ECPairSigner.fromPrivateKey backend r.privateKey
    { compressed := some r.compressed, network := some r.network }

/-! ## Backend conformance check (from `src/testecc.ts`)

The check is modelled as a boolean: `true` means every `assert` of the source
passes, `false` means the first failing assert would have thrown. -/

/-- Embedding of `charToNibble` from `src/types.ts` (with its `-1` failure sentinel). -/
def charToNibble (c : Nat) : Int :=
  if 48 ≤ c ∧ c ≤ 57 then (c : Int) - 48
  else if 65 ≤ c ∧ c ≤ 70 then (c : Int) - 55
  else if 97 ≤ c ∧ c ≤ 102 then (c : Int) - 87
  else -1

/-- The loop of `fromHexInternal`: `out[i >> 1] = (hi << 4) | lo`. -/
def fromHexPairs : List Char → Except String (List Nat)
  | [] => .ok []
  | [_] => .error "fromHexInternal: odd-length hex string"
  | c1 :: c2 :: rest =>
    let hi := charToNibble c1.toNat
    let lo := charToNibble c2.toNat
    if hi == -1 || lo == -1 then .error "fromHexInternal: invalid hex character"
    else do
      let out ← fromHexPairs rest
      .ok (((hi.toNat <<< 4) ||| lo.toNat) :: out)

/-- Embedding of `fromHexInternal` from `src/types.ts`. -/
def fromHexInternal (hex : String) : Except String (List Nat) :=
  if hex.length % 2 != 0 then .error "fromHexInternal: odd-length hex string"
  else fromHexPairs hex.toList

/-- Embedding of `bytesEqual` from `src/types.ts` (same length, same elements). -/
def bytesEqual (a b : List Nat) : Bool :=
  a == b

/-- The local helper `h` of `src/testecc.ts` (all its arguments are valid hex
constants, so the failure branch of `fromHexInternal` is dead). -/
def hx (hex : String) : List Nat :=
  (fromHexInternal hex).toOption.getD []

/-- Embedding of `verifyCryptoBackend` from `src/testecc.ts`: the fixed known-answer vector
battery, conjoined in source order.  The battery's `pointFromScalar` call
passes no `compressed` flag; the adapters default it to `true`. -/
def verifyCryptoBackend (backend : CryptoBackend) : Bool :=
  backend.isPoint
      (hx "0279be667ef9dcbbac55a06295ce870b07029bfcdb2dce28d959f2815b16f81798")
    && !backend.isPoint
      (hx "030000000000000000000000000000000000000000000000000000000000000005")
    && backend.isPrivate
      (hx "79be667ef9dcbbac55a06295ce870b07029bfcdb2dce28d959f2815b16f81798")
    && backend.isPrivate
      (hx "fffffffffffffffffffffffffffffffebaaedce6af48a03bbfd25e8cd0364140")
    && !backend.isPrivate
      (hx "0000000000000000000000000000000000000000000000000000000000000000")
    && !backend.isPrivate
      (hx "fffffffffffffffffffffffffffffffebaaedce6af48a03bbfd25e8cd0364141")
    && !backend.isPrivate
      (hx "fffffffffffffffffffffffffffffffebaaedce6af48a03bbfd25e8cd0364142")
    && (match backend.privateAdd
          (hx "0000000000000000000000000000000000000000000000000000000000000001")
          (hx "0000000000000000000000000000000000000000000000000000000000000000") with
        | some r => bytesEqual r
            (hx "0000000000000000000000000000000000000000000000000000000000000001")
        | none => false)
    && (backend.privateAdd
          (hx "fffffffffffffffffffffffffffffffebaaedce6af48a03bbfd25e8cd036413e")
          (hx "0000000000000000000000000000000000000000000000000000000000000003")
        == none)
    && (match backend.privateAdd
          (hx "e211078564db65c3ce7704f08262b1f38f1ef412ad15b5ac2d76657a63b2c500")
          (hx "b51fbb69051255d1becbd683de5848242a89c229348dd72896a87ada94ae8665") with
        | some r => bytesEqual r
            (hx "9730c2ee69edbb958d42db7460bafa18fef9d955325aec99044c81c8282b0a24")
        | none => false)
    && bytesEqual
      (backend.privateNegate
        (hx "0000000000000000000000000000000000000000000000000000000000000001"))
      (hx "fffffffffffffffffffffffffffffffebaaedce6af48a03bbfd25e8cd0364140")
    && bytesEqual
      (backend.privateNegate
        (hx "fffffffffffffffffffffffffffffffebaaedce6af48a03bbfd25e8cd036413e"))
      (hx "0000000000000000000000000000000000000000000000000000000000000003")
    && bytesEqual
      (backend.privateNegate
        (hx "b1121e4088a66a28f5b6b0f5844943ecd9f610196d7bb83b25214b60452c09af"))
      (hx "4eede1bf775995d70a494f0a7bb6bc11e0b8cccd41cce8009ab1132c8b0a3792")
    && bytesEqual
      (backend.pointCompress
        (hx "0479be667ef9dcbbac55a06295ce870b07029bfcdb2dce28d959f2815b16f81798483ada7726a3c4655da4fbfc0e1108a8fd17b448a68554199c47d08ffb10d4b8")
        true)
      (hx "0279be667ef9dcbbac55a06295ce870b07029bfcdb2dce28d959f2815b16f81798")
    && bytesEqual
      (backend.pointCompress
        (hx "0479be667ef9dcbbac55a06295ce870b07029bfcdb2dce28d959f2815b16f81798483ada7726a3c4655da4fbfc0e1108a8fd17b448a68554199c47d08ffb10d4b8")
        false)
      (hx "0479be667ef9dcbbac55a06295ce870b07029bfcdb2dce28d959f2815b16f81798483ada7726a3c4655da4fbfc0e1108a8fd17b448a68554199c47d08ffb10d4b8")
    && bytesEqual
      (backend.pointCompress
        (hx "0279be667ef9dcbbac55a06295ce870b07029bfcdb2dce28d959f2815b16f81798")
        true)
      (hx "0279be667ef9dcbbac55a06295ce870b07029bfcdb2dce28d959f2815b16f81798")
    && bytesEqual
      (backend.pointCompress
        (hx "0279be667ef9dcbbac55a06295ce870b07029bfcdb2dce28d959f2815b16f81798")
        false)
      (hx "0479be667ef9dcbbac55a06295ce870b07029bfcdb2dce28d959f2815b16f81798483ada7726a3c4655da4fbfc0e1108a8fd17b448a68554199c47d08ffb10d4b8")
    && (match backend.pointFromScalar
          (hx "b1121e4088a66a28f5b6b0f5844943ecd9f610196d7bb83b25214b60452c09af")
          true with
        | some r => bytesEqual r
            (hx "02b07ba9dca9523b7ef4bd97703d43d20399eb698e194704791a25ce77a400df99")
        | none => false)
    && (backend.xOnlyPointAddTweak
          (hx "79be667ef9dcbbac55a06295ce870b07029bfcdb2dce28d959f2815b16f81798")
          (hx "fffffffffffffffffffffffffffffffebaaedce6af48a03bbfd25e8cd0364140")
        == none)
    && (match backend.xOnlyPointAddTweak
          (hx "1617d38ed8d8657da4d4761e8057bc396ea9e4b9d29776d4be096016dbd2509b")
          (hx "a8397a935f0dfceba6ba9618f6451ef4d80637abf4e6af2669fbc9de6a8fd2ac") with
        | some pr =>
          bytesEqual pr.2
            (hx "e478f99dab91052ab39a33ea35fd5e6e4933f4d28023cd597c9a1f6760346adf")
          && pr.1 == 1
        | none => false)
    && (match backend.xOnlyPointAddTweak
          (hx "2c0b7cf95324a07d05398b240174dc0c2be444d96b159aa6c7f7b1e668680991")
          (hx "823c3cd2142744b075a87eade7e1b8678ba308d566226a0056ca2b7a76f86b47") with
        | some pr =>
          bytesEqual pr.2
            (hx "9534f8dc8c6deda2dc007655981c78b49c5d96c778fbf363462a11ec9dfd948c")
          && pr.1 == 0
        | none => false)
    && bytesEqual
      (backend.sign
        (hx "5e9f0a0d593efdcf78ac923bc3313e4e7d408d574354ee2b3288c0da9fbba6ed")
        (hx "fffffffffffffffffffffffffffffffebaaedce6af48a03bbfd25e8cd0364140")
        none)
      (hx "54c4a33c6423d689378f160a7ff8b61330444abb58fb470f96ea16d99d4a2fed07082304410efa6b2943111b6a4e0aaa7b7db55a07e9861d1fb3cb1f421044a5")
    && backend.verify
      (hx "5e9f0a0d593efdcf78ac923bc3313e4e7d408d574354ee2b3288c0da9fbba6ed")
      (hx "0379be667ef9dcbbac55a06295ce870b07029bfcdb2dce28d959f2815b16f81798")
      (backend.sign
        (hx "5e9f0a0d593efdcf78ac923bc3313e4e7d408d574354ee2b3288c0da9fbba6ed")
        (hx "fffffffffffffffffffffffffffffffebaaedce6af48a03bbfd25e8cd0364140")
        none)
    && (match backend.signSchnorr with
        | some f =>
          bytesEqual
            (f (hx "7e2d58d8b3bcdf1abadec7829054f90dda9805aab56c77333024b9d0a508b75c")
               (hx "c90fdaa22168c234c4c6628b80dc1cd129024e088a67cc74020bbea63b14e5c9")
               (some (hx "c87aa53824b4d7ae2eb035a2b5bbbccc080e76cdc6d1692c4b0b62d798e6d906")))
            (hx "5831aaeed7b44bb74e5eab94ba9d4294c49bcf2a60728d8b4c200f50dd313c1bab745879a5ad954a72c45a91c3a51d3c7adea98d82f8481e0e1e03674a6f3fb7")
        | none => true)
    && (match backend.verifySchnorr with
        | some f =>
          f (hx "7e2d58d8b3bcdf1abadec7829054f90dda9805aab56c77333024b9d0a508b75c")
            (hx "dd308afec5777e13121fa72b9cc1b7cc0139715309b086c960e18fd969774eb8")
            (hx "5831aaeed7b44bb74e5eab94ba9d4294c49bcf2a60728d8b4c200f50dd313c1bab745879a5ad954a72c45a91c3a51d3c7adea98d82f8481e0e1e03674a6f3fb7")
        | none => true)

/-! ## Abstract model of the secp256k1 collaborator

The curve arithmetic lives in the external `@noble/curves` library, which is
outside the repository (and explicitly outside the spec's scope).  It is
modelled abstractly: the secp256k1 group is cyclic of prime order `n`, so a
point is represented by its discrete logarithm in `ZMod n` (`0` is the point
at infinity and `d ≠ 0` represents `d·G`).  `xb d` and `yb d` are the 32-byte
big-endian x- and y-coordinate encodings of `d·G`, `par d` is the parity of
its y-coordinate (`true` = odd), and `liftX` models `schnorr.utils.lift_x`
(BIP340: the point with the given x-coordinate and even y).  The listed
hypotheses are standard facts of the curve: negation keeps x and flips the
parity of y (no point of the prime-order group has `y = 0`). -/

structure SecpModel where
  n : Nat
  hn : 1 < n
  hodd : n % 2 = 1
  hsize : n < 256 ^ 32
  xb : ZMod n → List Nat
  yb : ZMod n → List Nat
  par : ZMod n → Bool
  liftX : Nat → Option (ZMod n)
  hxlen : ∀ d : ZMod n, d ≠ 0 → (xb d).length = 32
  hyblen : ∀ d : ZMod n, d ≠ 0 → (yb d).length = 32
  hxneg : ∀ d : ZMod n, xb (-d) = xb d
  hparneg : ∀ d : ZMod n, d ≠ 0 → par (-d) = !par d
  hylast : ∀ d : ZMod n, d ≠ 0 → ((yb d).getD 31 0) &&& 1 = (if par d then 1 else 0)
  hliftX : ∀ d : ZMod n, d ≠ 0 →
    liftX (bytesToBigInt (xb d)) = some (if par d then -d else d)

namespace SecpModel

/-- The even-y representative of the point with xb `d`-s x-coordinate. -/
def evenRep (M : SecpModel) (d : ZMod M.n) : ZMod M.n :=
  if M.par d then -d else d

/-- SEC1 encoding of the point `d·G` (compressed: parity prefix `02`/`03`
followed by x; uncompressed: prefix `04` followed by x and y). -/
def enc (M : SecpModel) (d : ZMod M.n) (compressed : Bool) : List Nat :=
  if compressed then (if M.par d then 0x03 else 0x02) :: M.xb d
  else 0x04 :: (M.xb d ++ M.yb d)

/-- Model of `secp256k1.getPublicKey(tweak, true)` followed by `Point.fromHex`, on the
discrete-logarithm representation: defined exactly for scalars in `[1, n)`
(noble throws for the zero scalar and for scalars ≥ n). -/
def getPublicKeyPoint (M : SecpModel) (tweak : List Nat) : Option (ZMod M.n) :=
  if 0 < bytesToBigInt tweak ∧ bytesToBigInt tweak < M.n then
    some ((bytesToBigInt tweak : ZMod M.n))
  else none

end SecpModel

/-- Embedding of `NobleBackend.xOnlyPointAddTweak` from the noble adapter, over the
abstract model.  The whole body is a `try`/`catch` returning `null` on any
throw: `lift_x` throws for an invalid x-coordinate, the explicit
`if (tweakBigint >= N) return null` guard handles large tweaks,
`getPublicKey(tweak)` throws for the zero scalar, and
`pointToBytes(result)` throws when `result` is the point at infinity. -/
def nobleXOnlyPointAddTweak (M : SecpModel) (p t : List Nat) : Option (Nat × List Nat) :=
  match M.liftX (bytesToBigInt p) with
  | none => none
  | some point =>
    if M.n ≤ bytesToBigInt t then none
    else
      match M.getPublicKeyPoint t with
      | none => none
      | some tweakPoint =>
        let result := point + tweakPoint
        if result = 0 then none
        else some ((if M.par result then 1 else 0), M.xb result)

/-- Conformance of a `CryptoBackend` to the abstract model: what each backend
operation computes, per the backend contract (§4.2 of the spec) and the noble
adapter.  `privateAdd` and `privateNegate` are the noble adapter's explicit
`mod(d + t, N)` / `mod(N - d, N)` big-integer formulas, and
`xOnlyPointAddTweak` is the noble adapter's function. -/
structure Conformant (M : SecpModel) (B : CryptoBackend) : Prop where
  isPrivate_eq : ∀ bs, B.isPrivate bs =
    (decide (bs.length = 32) && decide (0 < bytesToBigInt bs)
      && decide (bytesToBigInt bs < M.n))
  pointFromScalar_eq : ∀ bs (c : Bool), bs.length = 32 → 0 < bytesToBigInt bs →
    bytesToBigInt bs < M.n →
    B.pointFromScalar bs c = some (M.enc ((bytesToBigInt bs : ZMod M.n)) c)
  pointCompress_eq : ∀ (d : ZMod M.n) (c c' : Bool), d ≠ 0 →
    B.pointCompress (M.enc d c) c' = M.enc d c'
  isPoint_enc : ∀ (d : ZMod M.n) (c : Bool), d ≠ 0 → B.isPoint (M.enc d c) = true
  privateAdd_eq : ∀ bs t, B.privateAdd bs t =
    (if (bytesToBigInt bs + bytesToBigInt t) % M.n = 0 then none
     else some (bigintToBytes32 ((bytesToBigInt bs + bytesToBigInt t) % M.n)))
  privateNegate_eq : ∀ bs, B.privateNegate bs =
    bigintToBytes32 ((M.n - bytesToBigInt bs) % M.n)
  xOnlyPointAddTweak_eq : ∀ p t, B.xOnlyPointAddTweak p t = nobleXOnlyPointAddTweak M p t

/-- Behaviour of the noble `xOnlyPointAddTweak` on a valid x-only key:
it fails exactly when the tweak is ≥ n, the tweak is zero, or the tweaked
point is the point at infinity, and otherwise returns the parity and the
x-bytes of `lift_x(p) + t·G`. -/
theorem nobleXOnlyPointAddTweak_spec (M : SecpModel) (d : ZMod M.n) (hd : d ≠ 0)
    (t : List Nat) :
    nobleXOnlyPointAddTweak M (M.xb d) t =
      (if M.n ≤ bytesToBigInt t then none
       else if bytesToBigInt t = 0 then none
       else if M.evenRep d + (bytesToBigInt t : ZMod M.n) = 0 then none
       else some ((if M.par (M.evenRep d + (bytesToBigInt t : ZMod M.n)) then 1 else 0),
         M.xb (M.evenRep d + (bytesToBigInt t : ZMod M.n)))) := by
  unfold nobleXOnlyPointAddTweak SecpModel.getPublicKeyPoint
  rw [M.hliftX d hd]
  by_cases h1 : M.n ≤ bytesToBigInt t
  · simp [h1]
  · by_cases h2 : bytesToBigInt t = 0
    · simp [h1, h2]
    · have hcond : 0 < bytesToBigInt t ∧ bytesToBigInt t < M.n :=
        ⟨Nat.pos_of_ne_zero h2, by omega⟩
      simp only [if_neg h1, if_neg h2, hcond, if_true, if_pos hcond]
      rfl

/-! ## Support lemmas -/

theorem length_bigintToBytes32 (m : Nat) : (bigintToBytes32 m).length = 32 :=
  digitsBE_length 32 m

/-- Whether an `Except` models a normal (non-throwing) return. -/
def exceptIsOk {α : Type} : Except String α → Bool
  | .ok _ => true
  | .error _ => false

theorem zmodCast_eq_zero_iff {n : Nat} (a : Nat) (hn : 0 < n) (ha : a < n) :
    ((a : ZMod n) = 0) ↔ a = 0 := by
  haveI : NeZero n := ⟨by omega⟩
  rw [ZMod.natCast_zmod_eq_zero_iff_dvd]
  constructor
  · intro hd; exact Nat.eq_zero_of_dvd_of_lt hd ha
  · rintro rfl; exact dvd_zero n

theorem zmodCast_sub {n : Nat} (a : Nat) (hn : 0 < n) (ha : a ≤ n) :
    ((n - a : Nat) : ZMod n) = -(a : ZMod n) := by
  haveI : NeZero n := ⟨by omega⟩
  push_cast [Nat.cast_sub ha]
  simp

/-- The odd-y test of `#tweakFromPrivateKey`, evaluated on a compressed
encoding: it is exactly the parity bit. -/
theorem hasOddY_enc_true (M : SecpModel) (d : ZMod M.n) :
    ((M.enc d true).head? == some 3
      || ((M.enc d true).head? == some 4 && (M.enc d true).length == 65
            && (((M.enc d true).getD 64 0) &&& 1 == 1))) = M.par d := by
  by_cases hp : M.par d <;> simp [SecpModel.enc, hp]

/-- Applying `toXOnly` to a compressed encoding drops the parity prefix. -/
theorem toXOnly_enc_true (M : SecpModel) (d : ZMod M.n) (hd : d ≠ 0) :
    toXOnly (M.enc d true) = M.xb d := by
  have hlen := M.hxlen d hd
  unfold toXOnly SecpModel.enc
  simp [hlen, List.take_of_length_le (le_of_eq hlen)]

/-! ## Claim C1: the two tweak paths -/

/-- The value `s.tweak(t).publicKey` for `s = fromPrivateKey(backend, dbytes, opts)`:
the private-key tweak path of the claim. -/
def privatePathPublicKey (B : CryptoBackend) (dbytes t : List Nat)
    (opts : SignerOptions) : Except String (List Nat) :=
  (ECPairSigner.fromPrivateKey B dbytes opts).bind fun s =>
    (s.tweak t).bind fun s1 => s1.publicKeyE

/-- The value `fromPublicKey(s.publicKey).tweak(t).publicKey` for the same `s` (options
of `fromPublicKey` omitted, as in the claim): the public-key-only tweak path. -/
def publicPathPublicKey (B : CryptoBackend) (dbytes t : List Nat)
    (opts : SignerOptions) : Except String (List Nat) :=
  (ECPairSigner.fromPrivateKey B dbytes opts).bind fun s =>
    s.publicKeyE.bind fun pub =>
      (ECPairSigner.fromPublicKey B pub noOptions).bind fun s2 =>
        (s2.tweak t).bind fun s2t => s2t.publicKeyE

/-- Full evaluation of the private-key tweak path over the model, for a
compressed signer. -/
theorem privatePath_eval (M : SecpModel) (B : CryptoBackend) (hB : Conformant M B)
    (dbytes t : List Nat) (opts : SignerOptions)
    (hc : opts.compressed.getD true = true)
    (hlen : dbytes.length = 32) (hpos : 0 < bytesToBigInt dbytes)
    (hlt : bytesToBigInt dbytes < M.n) :
    privatePathPublicKey B dbytes t opts =
      if M.evenRep (bytesToBigInt dbytes : ZMod M.n) + (bytesToBigInt t : ZMod M.n) = 0 then
        Except.error "Invalid tweaked private key!"
      else
        Except.ok (M.enc
          (M.evenRep (bytesToBigInt dbytes : ZMod M.n) + (bytesToBigInt t : ZMod M.n))
          true) := by
  have hn0 : 0 < M.n := lt_trans Nat.zero_lt_one M.hn
  set dv := bytesToBigInt dbytes with hdv
  set tv := bytesToBigInt t with htv
  set dz : ZMod M.n := (dv : ZMod M.n) with hdzdef
  have hdz : dz ≠ 0 := by
    rw [hdzdef, Ne, zmodCast_eq_zero_iff _ hn0 hlt]; omega
  have hpriv : B.isPrivate dbytes = true := by
    simp [hB.isPrivate_eq, ← hdv, hlen, hpos, hlt]
  -- the constructed signer
  have hfrom : ECPairSigner.fromPrivateKey B dbytes opts
      = .ok (ECPairSigner.make B (some dbytes) none opts) := by
    simp [ECPairSigner.fromPrivateKey, hpriv]
  have hpub : (ECPairSigner.make B (some dbytes) none opts).publicKeyE
      = .ok (M.enc dz true) := by
    simp only [ECPairSigner.publicKeyE, ECPairSigner.make, Option.map_none']
    rw [hc, hB.pointFromScalar_eq dbytes true hlen hpos hlt]
  -- the effective (possibly negated) key
  have heff : bytesToBigInt (if M.par dz then B.privateNegate dbytes else dbytes)
      = (if M.par dz then (M.n - dv) % M.n else dv) := by
    by_cases hp : M.par dz
    · simp only [hp, if_true, hB.privateNegate_eq, ← hdv]
      exact bytesToBigInt_bigintToBytes32 _ (lt_trans (Nat.mod_lt _ hn0) M.hsize)
    · simp [hp]
  have hevcast : (((if M.par dz then (M.n - dv) % M.n else dv) : Nat) : ZMod M.n)
      = M.evenRep dz := by
    unfold SecpModel.evenRep
    by_cases hp : M.par dz
    · simp only [hp, if_true]
      rw [ZMod.natCast_mod, zmodCast_sub _ hn0 (le_of_lt hlt)]
    · simp [hp]
  set evNat : Nat := if M.par dz then (M.n - dv) % M.n else dv with hevNat
  have hsumcast : (((evNat + tv) % M.n : Nat) : ZMod M.n)
      = M.evenRep dz + (tv : ZMod M.n) := by
    rw [ZMod.natCast_mod, Nat.cast_add, hevcast]
  have hsumiff : ((evNat + tv) % M.n = 0)
      ↔ (M.evenRep dz + (tv : ZMod M.n) = 0) := by
    rw [← hsumcast]
    exact (zmodCast_eq_zero_iff _ hn0 (Nat.mod_lt _ hn0)).symm
  -- evaluate the path
  unfold privatePathPublicKey
  rw [hfrom]
  show ((ECPairSigner.make B (some dbytes) none opts).tweak t).bind _ = _
  have hpk : (ECPairSigner.make B (some dbytes) none opts).privateKey = some dbytes := rfl
  rw [ECPairSigner.tweak, hpk]
  rw [ECPairSigner.tweakFromPrivateKey]
  rw [hpub]
  show ((match (ECPairSigner.make B (some dbytes) none opts).privateKey with
      | none => Except.error "Missing private key"
      | some privateKey =>
        let hasOddY := (M.enc dz true).head? == some 3
          || ((M.enc dz true).head? == some 4 && (M.enc dz true).length == 65
                && (((M.enc dz true).getD 64 0) &&& 1 == 1))
        let effectiveKey := if hasOddY
          then (ECPairSigner.make B (some dbytes) none opts).backend.privateNegate privateKey
          else privateKey
        match (ECPairSigner.make B (some dbytes) none opts).backend.privateAdd
            effectiveKey t with
        | none => Except.error "Invalid tweaked private key!"
        | some tweakedPrivateKey =>
          ECPairSigner.fromPrivateKey
            (ECPairSigner.make B (some dbytes) none opts).backend tweakedPrivateKey
            { compressed := some (ECPairSigner.make B (some dbytes) none opts).compressed,
              network := some (ECPairSigner.make B (some dbytes) none opts).network }) :
      Except String ECPairSigner).bind ECPairSigner.publicKeyE = _
  rw [hpk]
  simp only [hasOddY_enc_true]
  have hbe : (ECPairSigner.make B (some dbytes) none opts).backend = B := rfl
  rw [hbe]
  rw [hB.privateAdd_eq, heff, ← htv]
  by_cases hz : M.evenRep dz + (tv : ZMod M.n) = 0
  · rw [if_pos (hsumiff.mpr hz), if_pos hz]
    rfl
  · rw [if_neg (fun hh => hz (hsumiff.mp hh)), if_neg hz]
    -- the tweaked key is accepted and its public key derived
    have hzn : (evNat + tv) % M.n ≠ 0 := fun hh => hz (hsumiff.mp hh)
    have hsl : (evNat + tv) % M.n < M.n := Nat.mod_lt _ hn0
    have hsb : bytesToBigInt (bigintToBytes32 ((evNat + tv) % M.n)) = (evNat + tv) % M.n :=
      bytesToBigInt_bigintToBytes32 _ (lt_trans hsl M.hsize)
    have hpriv2 : B.isPrivate (bigintToBytes32 ((evNat + tv) % M.n)) = true := by
      simp [hB.isPrivate_eq, length_bigintToBytes32, hsb, hsl, Nat.pos_of_ne_zero hzn]
    have hcomp : (ECPairSigner.make B (some dbytes) none opts).compressed = true := hc
    rw [hcomp]
    simp only [ECPairSigner.fromPrivateKey, hpriv2, if_true]
    show (ECPairSigner.make B (some (bigintToBytes32 ((evNat + tv) % M.n))) none
      { compressed := some true, network := some _ }).publicKeyE = _
    simp only [ECPairSigner.publicKeyE, ECPairSigner.make, Option.map_none']
    rw [show ((some true : Option Bool).getD true) = true from rfl]
    rw [hB.pointFromScalar_eq _ true (length_bigintToBytes32 _)
      (by rw [hsb]; exact Nat.pos_of_ne_zero hzn) (by rw [hsb]; exact hsl)]
    rw [hsb, hsumcast]

theorem exceptOk_bind {α β : Type} (a : α) (f : α → Except String β) :
    (Except.ok a : Except String α) >>= f = f a := rfl

instance {α : Type} [DecidableEq α] : DecidableEq (Except String α) := fun a b =>
  match a, b with
  | .error e1, .error e2 =>
    if h : e1 = e2 then .isTrue (h ▸ rfl) else .isFalse fun hh => h (Except.error.inj hh)
  | .error _, .ok _ => .isFalse fun hh => Except.noConfusion hh
  | .ok _, .error _ => .isFalse fun hh => Except.noConfusion hh
  | .ok a1, .ok a2 =>
    if h : a1 = a2 then .isTrue (h ▸ rfl) else .isFalse fun hh => h (Except.ok.inj hh)

/-- Full evaluation of the public-key-only tweak path over the model. -/
theorem publicPath_eval (M : SecpModel) (B : CryptoBackend) (hB : Conformant M B)
    (dbytes t : List Nat) (opts : SignerOptions)
    (hc : opts.compressed.getD true = true)
    (hlen : dbytes.length = 32) (hpos : 0 < bytesToBigInt dbytes)
    (hlt : bytesToBigInt dbytes < M.n) :
    publicPathPublicKey B dbytes t opts =
      if M.n ≤ bytesToBigInt t then Except.error "Cannot tweak public key!"
      else if bytesToBigInt t = 0 then Except.error "Cannot tweak public key!"
      else if M.evenRep (bytesToBigInt dbytes : ZMod M.n) + (bytesToBigInt t : ZMod M.n) = 0
        then Except.error "Cannot tweak public key!"
      else
        Except.ok (M.enc
          (M.evenRep (bytesToBigInt dbytes : ZMod M.n) + (bytesToBigInt t : ZMod M.n))
          true) := by
  have hn0 : 0 < M.n := lt_trans Nat.zero_lt_one M.hn
  set dv := bytesToBigInt dbytes with hdv
  set tv := bytesToBigInt t with htv
  set dz : ZMod M.n := (dv : ZMod M.n) with hdzdef
  have hdz : dz ≠ 0 := by
    rw [hdzdef, Ne, zmodCast_eq_zero_iff _ hn0 hlt]; omega
  have hpriv : B.isPrivate dbytes = true := by
    simp [hB.isPrivate_eq, ← hdv, hlen, hpos, hlt]
  have hfrom : ECPairSigner.fromPrivateKey B dbytes opts
      = .ok (ECPairSigner.make B (some dbytes) none opts) := by
    simp [ECPairSigner.fromPrivateKey, hpriv]
  have hpub : (ECPairSigner.make B (some dbytes) none opts).publicKeyE
      = .ok (M.enc dz true) := by
    simp only [ECPairSigner.publicKeyE, ECPairSigner.make, Option.map_none']
    rw [hc, hB.pointFromScalar_eq dbytes true hlen hpos hlt]
  have hisP : B.isPoint (M.enc dz true) = true := hB.isPoint_enc dz true hdz
  have hfromPub : ECPairSigner.fromPublicKey B (M.enc dz true) noOptions
      = .ok (ECPairSigner.make B none (some (M.enc dz true)) noOptions) := by
    simp [ECPairSigner.fromPublicKey, hisP]
  set s2 : ECPairSigner := ECPairSigner.make B none (some (M.enc dz true)) noOptions
    with hs2
  have hs2pub : s2.publicKeyE = .ok (M.enc dz true) := by
    simp only [hs2, ECPairSigner.publicKeyE, ECPairSigner.make, Option.map_some']
    show Except.ok (B.pointCompress (M.enc dz true) ((noOptions.compressed).getD true)) = _
    rw [show ((noOptions.compressed).getD true) = true from rfl,
      hB.pointCompress_eq dz true true hdz]
  have hs2x : s2.xOnlyPublicKeyE = .ok (M.xb dz) := by
    rw [ECPairSigner.xOnlyPublicKeyE, hs2pub]
    show Except.ok (toXOnly (M.enc dz true)) = _
    rw [toXOnly_enc_true M dz hdz]
  unfold publicPathPublicKey
  rw [hfrom]
  show ((ECPairSigner.make B (some dbytes) none opts).publicKeyE).bind _ = _
  rw [hpub]
  show (ECPairSigner.fromPublicKey B (M.enc dz true) noOptions).bind _ = _
  rw [hfromPub]
  show (s2.tweak t).bind _ = _
  have hs2priv : s2.privateKey = none := rfl
  rw [ECPairSigner.tweak, hs2priv, ECPairSigner.tweakFromPublicKey, hs2x, exceptOk_bind]
  rw [show s2.backend = B from rfl]
  rw [hB.xOnlyPointAddTweak_eq, nobleXOnlyPointAddTweak_spec M dz hdz t, ← htv]
  by_cases h1 : M.n ≤ tv
  · rw [if_pos h1, if_pos h1]; rfl
  · rw [if_neg h1, if_neg h1]
    by_cases h2 : tv = 0
    · rw [if_pos h2, if_pos h2]; rfl
    · rw [if_neg h2, if_neg h2]
      by_cases h3 : M.evenRep dz + (tv : ZMod M.n) = 0
      · rw [if_pos h3, if_pos h3]; rfl
      · rw [if_neg h3, if_neg h3]
        set ez : ZMod M.n := M.evenRep dz + (tv : ZMod M.n) with hez
        -- the reconstructed full key is the compressed encoding of the result
        have hpb : ((if (if M.par ez then 1 else 0) == 0 then 0x02 else 0x03) : Nat)
            = (if M.par ez then 0x03 else 0x02) := by
          by_cases hp : M.par ez <;> simp [hp]
        have hfull : concatBytes [(if M.par ez then 0x03 else 0x02)] (M.xb ez)
            = M.enc ez true := by
          simp [concatBytes, SecpModel.enc]
        have hcreate : createPublicKey (M.enc ez true) = .ok (M.enc ez true) := by
          have hl : (M.enc ez true).length = 33 := by
            simp [SecpModel.enc, M.hxlen ez h3]
          have hpk : isPublicKey (M.enc ez true) = true := by
            unfold isPublicKey
            by_cases hp : M.par ez <;> simp [SecpModel.enc, hp, hl, M.hxlen ez h3]
          simp [createPublicKey, assertPublicKey, hpk, Except.map]
        show (((createPublicKey (concatBytes
            [(if (if M.par ez then 1 else 0) == 0 then 0x02 else 0x03)] (M.xb ez)))
          >>= fun pk => ECPairSigner.fromPublicKey B pk
            { compressed := some s2.compressed, network := some s2.network }).bind
          fun s2t => s2t.publicKeyE) = _
        rw [hpb, hfull, hcreate, exceptOk_bind]
        have hisP2 : B.isPoint (M.enc ez true) = true := hB.isPoint_enc ez true h3
        simp only [ECPairSigner.fromPublicKey, hisP2, if_true]
        show (ECPairSigner.make B none (some (M.enc ez true))
          { compressed := some s2.compressed, network := some s2.network }).publicKeyE = _
        simp only [ECPairSigner.publicKeyE, ECPairSigner.make, Option.map_some']
        show Except.ok (B.pointCompress (M.enc ez true)
          ((some s2.compressed).getD true)) = _
        rw [show ((some s2.compressed).getD true) = s2.compressed from rfl,
          show s2.compressed = true from rfl,
          hB.pointCompress_eq ez true true h3]

/-! ## A small concrete instance of the model (test fixture)

A cyclic group of order 7 standing in for the secp256k1 group, with concrete
x/y encodings satisfying the geometric facts of `SecpModel`.  `x(d·G)` is
encoded as the 32-byte value of `min(d, 7-d)`; parity is `d > 3`; the last
byte of `y` carries the parity.  Used to instantiate witnesses and
counterexamples with fully computable inputs. -/

def par7 (d : ZMod 7) : Bool := decide (3 < d.val)

def xb7 (d : ZMod 7) : List Nat := bigintToBytes32 (min d.val (7 - d.val))

def yb7 (d : ZMod 7) : List Nat := bigintToBytes32 (if par7 d then 1 else 0)

def liftX7 (x : Nat) : Option (ZMod 7) :=
  (List.range 7).findSome? fun i =>
    if i ≠ 0 ∧ ¬ par7 (i : ZMod 7) ∧ bytesToBigInt (xb7 (i : ZMod 7)) = x then
      some ((i : ZMod 7))
    else none

def M7 : SecpModel where
  n := 7
  hn := by norm_num
  hodd := by norm_num
  hsize := by norm_num
  xb := xb7
  yb := yb7
  par := par7
  liftX := liftX7
  hxlen := by decide
  hyblen := by decide
  hxneg := by decide
  hparneg := by decide
  hylast := by decide
  hliftX := by decide

/-- A `CryptoBackend` over the order-7 model, conformant by construction. -/
def B7 : CryptoBackend where
  isPrivate := fun bs =>
    decide (bs.length = 32) && decide (0 < bytesToBigInt bs)
      && decide (bytesToBigInt bs < M7.n)
  isPoint := fun p =>
    (List.range 7).any fun i =>
      decide (i ≠ 0) && (p == M7.enc (i : ZMod 7) true || p == M7.enc (i : ZMod 7) false)
  pointFromScalar := fun bs c => some (M7.enc ((bytesToBigInt bs : ZMod M7.n)) c)
  pointCompress := fun p c =>
    ((List.range 7).findSome? fun i =>
      if i ≠ 0 ∧ (p = M7.enc (i : ZMod 7) true ∨ p = M7.enc (i : ZMod 7) false) then
        some (M7.enc (i : ZMod 7) c)
      else none).getD p
  pointAddScalar := fun _ _ _ => none
  xOnlyPointAddTweak := fun p t => nobleXOnlyPointAddTweak M7 p t
  privateAdd := fun bs t =>
    if (bytesToBigInt bs + bytesToBigInt t) % M7.n = 0 then none
    else some (bigintToBytes32 ((bytesToBigInt bs + bytesToBigInt t) % M7.n))
  privateNegate := fun bs => bigintToBytes32 ((M7.n - bytesToBigInt bs) % M7.n)
  sign := fun _ _ _ => []
  verify := fun _ _ _ => false
  signSchnorr := none
  verifySchnorr := none
  generatePrivateKey := none

theorem conformant_M7_B7 : Conformant M7 B7 where
  isPrivate_eq := fun _ => rfl
  pointFromScalar_eq := fun _ _ _ _ _ => rfl
  pointCompress_eq := by
    show ∀ (d : ZMod 7) (c c' : Bool), d ≠ 0 → B7.pointCompress (M7.enc d c) c' = M7.enc d c'
    decide
  isPoint_enc := by
    show ∀ (d : ZMod 7) (c : Bool), d ≠ 0 → B7.isPoint (M7.enc d c) = true
    decide
  privateAdd_eq := fun _ _ => rfl
  privateNegate_eq := fun _ => rfl
  xOnlyPointAddTweak_eq := fun _ _ => rfl

/-- C1 (amended): for every signer built by `fromPrivateKey` over a conformant
backend **with `compressed = true` (the default)**, and every tweak whose
result is non-degenerate (neither path fails),
`s.tweak(t).publicKey = fromPublicKey(s.publicKey).tweak(t).publicKey`:
the private-key path and the public-key-only path produce byte-identical
public keys.  (For `compressed = false` the claim as stated fails — the two
paths return the same curve point in different encodings; see the
counterexample.) -/
theorem claim_C1_tweak_cross_path (M : SecpModel) (B : CryptoBackend)
    (hB : Conformant M B) (dbytes t : List Nat) (opts : SignerOptions)
    (hc : opts.compressed.getD true = true)
    (h1 : exceptIsOk (privatePathPublicKey B dbytes t opts) = true)
    (h2 : exceptIsOk (publicPathPublicKey B dbytes t opts) = true) :
    privatePathPublicKey B dbytes t opts = publicPathPublicKey B dbytes t opts := by
  by_cases hp : B.isPrivate dbytes = true
  · rw [hB.isPrivate_eq] at hp
    simp only [Bool.and_eq_true, decide_eq_true_eq] at hp
    obtain ⟨⟨hlen, hpos⟩, hlt⟩ := hp
    rw [publicPath_eval M B hB dbytes t opts hc hlen hpos hlt] at h2
    rw [privatePath_eval M B hB dbytes t opts hc hlen hpos hlt,
        publicPath_eval M B hB dbytes t opts hc hlen hpos hlt]
    by_cases g1 : M.n ≤ bytesToBigInt t
    · rw [if_pos g1] at h2; exact absurd h2 (by simp [exceptIsOk])
    · rw [if_neg g1] at h2 ⊢
      by_cases g2 : bytesToBigInt t = 0
      · rw [if_pos g2] at h2; exact absurd h2 (by simp [exceptIsOk])
      · rw [if_neg g2] at h2 ⊢
        by_cases g3 : M.evenRep (bytesToBigInt dbytes : ZMod M.n)
            + (bytesToBigInt t : ZMod M.n) = 0
        · rw [if_pos g3] at h2; exact absurd h2 (by simp [exceptIsOk])
        · rw [if_neg g3, if_neg g3]
  · have hfalse : B.isPrivate dbytes = false := by
      cases hval : B.isPrivate dbytes
      · rfl
      · exact absurd hval hp
    exfalso
    unfold privatePathPublicKey at h1
    rw [ECPairSigner.fromPrivateKey, hfalse] at h1
    simp [exceptIsOk, Except.bind] at h1

/-- Witness for C1: a fully concrete compressed signer over the order-7 model
backend, private key 1, tweak 1; both paths succeed and agree. -/
theorem claim_C1_witness :
    exceptIsOk (privatePathPublicKey B7 (bigintToBytes32 1) (bigintToBytes32 1) noOptions)
      = true
    ∧ exceptIsOk (publicPathPublicKey B7 (bigintToBytes32 1) (bigintToBytes32 1) noOptions)
      = true
    ∧ privatePathPublicKey B7 (bigintToBytes32 1) (bigintToBytes32 1) noOptions
      = publicPathPublicKey B7 (bigintToBytes32 1) (bigintToBytes32 1) noOptions :=
  ⟨by decide, by decide,
    claim_C1_tweak_cross_path M7 B7 conformant_M7_B7 (bigintToBytes32 1) (bigintToBytes32 1)
      noOptions rfl (by decide) (by decide)⟩

/-- Counterexample to C1 as stated: for an **uncompressed** signer
(`compressed = false`) over the same conformant backend, both paths succeed
but the resulting public keys differ byte-wise (the private-key path keeps the
signer's 65-byte uncompressed encoding, while the public-key-only path always
rebuilds a 33-byte compressed key). -/
theorem claim_C1_counterexample :
    exceptIsOk (privatePathPublicKey B7 (bigintToBytes32 1) (bigintToBytes32 1)
        { compressed := some false, network := none }) = true
    ∧ exceptIsOk (publicPathPublicKey B7 (bigintToBytes32 1) (bigintToBytes32 1)
        { compressed := some false, network := none }) = true
    ∧ privatePathPublicKey B7 (bigintToBytes32 1) (bigintToBytes32 1)
        { compressed := some false, network := none }
      ≠ publicPathPublicKey B7 (bigintToBytes32 1) (bigintToBytes32 1)
        { compressed := some false, network := none } :=
  ⟨by decide, by decide, by decide⟩

/-! ## Claim C4: `NobleBackend.xOnlyPointAddTweak` absence condition -/

/-- C4 (amended): for every valid x-only public key and 32-byte tweak, the
noble adapter's `xOnlyPointAddTweak` returns absent (`none`) iff the tweak is
≥ the curve order, **or the tweak is zero** (noble's `getPublicKey` throws on
the zero scalar and the adapter's `catch` turns that into `null`), or the
resulting point is the point at infinity; for every other input it returns
the tweaked x-only key together with the parity of the result. -/
theorem claim_C4_xonly_add_tweak_absent_iff (M : SecpModel) (d : ZMod M.n)
    (hd : d ≠ 0) (t : List Nat) :
    (nobleXOnlyPointAddTweak M (M.xb d) t = none
      ↔ (M.n ≤ bytesToBigInt t ∨ bytesToBigInt t = 0
          ∨ M.evenRep d + (bytesToBigInt t : ZMod M.n) = 0))
    ∧ (∀ parity xpk, nobleXOnlyPointAddTweak M (M.xb d) t = some (parity, xpk) →
        xpk = M.xb (M.evenRep d + (bytesToBigInt t : ZMod M.n))
        ∧ parity = (if M.par (M.evenRep d + (bytesToBigInt t : ZMod M.n)) then 1 else 0)) := by
  rw [nobleXOnlyPointAddTweak_spec M d hd t]
  by_cases g1 : M.n ≤ bytesToBigInt t
  · constructor
    · simp [g1]
    · intro parity xpk h
      rw [if_pos g1] at h
      cases h
  · by_cases g2 : bytesToBigInt t = 0
    · constructor
      · simp [g1, g2]
      · intro parity xpk h
        rw [if_neg g1, if_pos g2] at h
        cases h
    · by_cases g3 : M.evenRep d + (bytesToBigInt t : ZMod M.n) = 0
      · constructor
        · simp [g1, g2, g3]
        · intro parity xpk h
          rw [if_neg g1, if_neg g2, if_pos g3] at h
          cases h
      · constructor
        · simp [g1, g2, g3]
        · intro parity xpk h
          rw [if_neg g1, if_neg g2, if_neg g3] at h
          have := Option.some.inj h
          exact ⟨congrArg Prod.snd this.symm, congrArg Prod.fst this.symm⟩

/-- Witness for C4: over the order-7 model, tweaking the x-only key of `G`
with tweak 2 succeeds, and (the degenerate scenario of the spec) tweaking it
with `n - 1 = 6` yields absent because the result is the point at
infinity. -/
theorem claim_C4_witness :
    ((1 : ZMod 7) ≠ 0)
    ∧ ((nobleXOnlyPointAddTweak M7 (M7.xb 1) (bigintToBytes32 2) = none
        ↔ (M7.n ≤ bytesToBigInt (bigintToBytes32 2)
            ∨ bytesToBigInt (bigintToBytes32 2) = 0
            ∨ M7.evenRep 1 + (bytesToBigInt (bigintToBytes32 2) : ZMod M7.n) = 0))
      ∧ (∀ parity xpk,
          nobleXOnlyPointAddTweak M7 (M7.xb 1) (bigintToBytes32 2) = some (parity, xpk) →
          xpk = M7.xb (M7.evenRep 1 + (bytesToBigInt (bigintToBytes32 2) : ZMod M7.n))
          ∧ parity = (if M7.par (M7.evenRep 1
              + (bytesToBigInt (bigintToBytes32 2) : ZMod M7.n)) then 1 else 0)))
    ∧ nobleXOnlyPointAddTweak M7 (M7.xb 1) (bigintToBytes32 6) = none :=
  ⟨by decide,
    claim_C4_xonly_add_tweak_absent_iff M7 1 (by decide) (bigintToBytes32 2),
    by decide⟩

/-- Counterexample to C4 as stated: the zero tweak.  The adapter returns
absent although the tweak is < n and the resulting point (the key itself)
is not the point at infinity. -/
theorem claim_C4_counterexample :
    nobleXOnlyPointAddTweak M7 (M7.xb 1) (bigintToBytes32 0) = none
    ∧ ¬ M7.n ≤ bytesToBigInt (bigintToBytes32 0)
    ∧ M7.evenRep 1 + (bytesToBigInt (bigintToBytes32 0) : ZMod M7.n) ≠ 0 :=
  ⟨by decide, by decide, by decide⟩

/-! ## Claim C2: low-R grinding -/

/-- The extra-entropy argument of the `k`-th signing attempt of the grinding
loop: attempt 0 is the initial `sign` with no extra entropy, attempt `k + 1`
uses the 32-byte counter buffer holding `k + 1`. -/
def attemptEntropy : Nat → Option (List Nat)
  | 0 => none
  | k + 1 => some (lowREntropy (k + 1))

/-- Invariant of the grinding loop: a returned signature is the first attempt
(at or after the starting counter) that does not need grinding, and every
earlier attempt needed grinding. -/
theorem grindGo_spec (f : Option (List Nat) → List Nat) (out : List Nat) :
    ∀ (fuel c : Nat),
      grindGo f fuel c (f (attemptEntropy c)) = some out →
      ∃ k, c ≤ k
        ∧ out = f (attemptEntropy k)
        ∧ (∀ j, c ≤ j → j < k → sigNeedsGrind (f (attemptEntropy j)) = true)
        ∧ sigNeedsGrind out = false := by
  intro fuel
  induction fuel with
  | zero =>
    intro c h
    unfold grindGo at h
    by_cases hs : sigNeedsGrind (f (attemptEntropy c)) = true
    · rw [if_pos hs] at h; cases h
    · rw [if_neg hs] at h
      refine ⟨c, le_refl c, (Option.some.inj h).symm, fun j hj1 hj2 => absurd hj2 (by omega), ?_⟩
      rw [← Option.some.inj h]
      exact Bool.eq_false_iff.mpr hs
  | succ fuel ih =>
    intro c h
    unfold grindGo at h
    by_cases hs : sigNeedsGrind (f (attemptEntropy c)) = true
    · rw [if_pos hs] at h
      have h' : grindGo f fuel (c + 1) (f (attemptEntropy (c + 1))) = some out := by
        simpa [attemptEntropy] using h
      obtain ⟨k, hk1, hk2, hk3, hk4⟩ := ih (c + 1) h'
      refine ⟨k, by omega, hk2, fun j hj1 hj2 => ?_, hk4⟩
      rcases Nat.eq_or_lt_of_le hj1 with rfl | hlt
      · exact hs
      · exact hk3 j (by omega) hj2
    · rw [if_neg hs] at h
      refine ⟨c, le_refl c, (Option.some.inj h).symm, fun j hj1 hj2 => absurd hj2 (by omega), ?_⟩
      rw [← Option.some.inj h]
      exact Bool.eq_false_iff.mpr hs

theorem headD_le_of_not_grind (sig : List Nat) (hne : sig ≠ [])
    (hg : sigNeedsGrind sig = false) : sig.headD 0 ≤ 0x7f := by
  cases sig with
  | nil => exact absurd rfl hne
  | cons b l =>
    simp only [sigNeedsGrind, List.head?_cons, decide_eq_false_iff_not, not_lt] at hg
    simpa [List.headD] using hg

/-- C2: with `lowR = true`, `sign` first calls the backend with no extra
entropy and then re-signs with the 32-byte little-endian counter buffer for
counters 1, 2, …; the signature it returns is the first attempt whose leading
byte is ≤ 0x7f, every earlier attempt had a leading byte > 0x7f, and (as long
as the backend returns non-empty signatures) the returned signature's leading
byte is ≤ 0x7f. -/
theorem claim_C2_lowR_grinding (B : CryptoBackend) (hash d : List Nat)
    (s : ECPairSigner) (hs : s.privateKey = some d) (hsb : s.backend = B)
    (fuel : Nat) (sig : List Nat)
    (hres : s.sign hash (some true) fuel = .ok (some sig))
    (hnonempty : ∀ e, B.sign hash d e ≠ []) :
    ∃ k, sig = B.sign hash d (attemptEntropy k)
      ∧ (∀ j, j < k → sigNeedsGrind (B.sign hash d (attemptEntropy j)) = true)
      ∧ sigNeedsGrind sig = false
      ∧ sig.headD 0 ≤ 0x7f := by
  rw [ECPairSigner.sign, hs, hsb] at hres
  have hres' : Except.ok (grindGo (fun e => B.sign hash d e) fuel 0 (B.sign hash d none))
      = (Except.ok (some sig) : Except String (Option (List Nat))) := hres
  have hgrind : grindGo (fun e => B.sign hash d e) fuel 0
      ((fun e => B.sign hash d e) (attemptEntropy 0)) = some sig :=
    Except.ok.inj hres'
  obtain ⟨k, _, hk2, hk3, hk4⟩ := grindGo_spec (fun e => B.sign hash d e) sig fuel 0 hgrind
  refine ⟨k, hk2, fun j hj => hk3 j (Nat.zero_le j) hj, hk4, ?_⟩
  exact headD_le_of_not_grind sig (hk2 ▸ hnonempty (attemptEntropy k)) hk4

/-- A test signing function for the grinding loop: the initial attempt and
the counter-1 attempt have high leading bytes, the counter-2 attempt is
low-R. -/
def grindTestSign : Option (List Nat) → List Nat := fun e =>
  if e = some (lowREntropy 1) then [0x90, 1]
  else if e = some (lowREntropy 2) then [0x10, 3]
  else [0x80, 5]

def grindTestBackend : CryptoBackend :=
  { B7 with sign := fun _ _ e => grindTestSign e }

/-- Witness for C2: on the test backend the grinding loop stops at counter 2
with the low-R signature `[0x10, 3]`. -/
theorem claim_C2_witness :
    ∃ k, ([0x10, 3] : List Nat) = grindTestBackend.sign [1] [2] (attemptEntropy k)
      ∧ (∀ j, j < k →
          sigNeedsGrind (grindTestBackend.sign [1] [2] (attemptEntropy j)) = true)
      ∧ sigNeedsGrind [0x10, 3] = false
      ∧ ([0x10, 3] : List Nat).headD 0 ≤ 0x7f := by
  refine claim_C2_lowR_grinding grindTestBackend [1] [2]
    (ECPairSigner.make grindTestBackend (some [2]) none noOptions) rfl rfl
    5 [0x10, 3] (by decide) ?_
  intro e
  by_cases h1 : e = some (lowREntropy 1)
  · rw [h1]; decide
  · by_cases h2 : e = some (lowREntropy 2)
    · rw [h2]; decide
    · simp [grindTestBackend, grindTestSign, h1, h2]

/-! ## Validation characterizations (for C5, C6, C8) -/

theorem lor_eq_zero {x y : Nat} (h : x ||| y = 0) : x = 0 ∧ y = 0 := by
  have ht : ∀ i, x.testBit i = false ∧ y.testBit i = false := by
    intro i
    have hb := congrArg (fun z => Nat.testBit z i) h
    simp only [Nat.testBit_lor, Nat.zero_testBit, Bool.or_eq_false_iff] at hb
    exact hb
  constructor
  · exact Nat.eq_of_testBit_eq fun i => by simp [(ht i).1]
  · exact Nat.eq_of_testBit_eq fun i => by simp [(ht i).2]

theorem bytesToBigIntAux_eq_zero (bs : List Nat) :
    ∀ acc, (bs.foldl (fun result b => (result <<< 8) ||| b) acc = 0
      ↔ (acc = 0 ∧ ∀ b ∈ bs, b = 0)) := by
  induction bs with
  | nil => intro acc; simp
  | cons b l ih =>
    intro acc
    simp only [List.foldl_cons, List.mem_cons]
    rw [ih]
    constructor
    · rintro ⟨h1, h2⟩
      obtain ⟨ha, hb⟩ := lor_eq_zero h1
      have ha0 : acc = 0 := by
        rw [Nat.shiftLeft_eq] at ha
        rcases Nat.mul_eq_zero.mp ha with h | h
        · exact h
        · exact absurd h (by norm_num)
      exact ⟨ha0, fun b' hb' => hb'.elim (fun hh => hh ▸ hb) (h2 b')⟩
    · rintro ⟨rfl, h2⟩
      refine ⟨?_, fun b' hb' => h2 b' (Or.inr hb')⟩
      have hb0 : b = 0 := h2 b (Or.inl rfl)
      simp [hb0]

/-- Predicate `isZeroBytes` holds exactly when the big-endian value is zero. -/
theorem isZeroBytes_iff (bs : List Nat) : isZeroBytes bs = true ↔ bytesToBigInt bs = 0 := by
  rw [isZeroBytes, bytesToBigInt, bytesToBigIntAux_eq_zero bs 0]
  simp

/-- Function `assertPrivateKey` succeeds exactly on 32-byte values in `[1, n)`. -/
theorem assertPrivateKey_ok_iff (bs : List Nat) :
    exceptIsOk (assertPrivateKey bs) = true
      ↔ (bs.length = 32 ∧ 0 < bytesToBigInt bs ∧ bytesToBigInt bs < EC_N) := by
  unfold assertPrivateKey
  split_ifs with h1 h2 h3
  · have hne : bs.length ≠ 32 := by simpa using h1
    simp [exceptIsOk, hne]
  · have h0 : bytesToBigInt bs = 0 := (isZeroBytes_iff bs).mp h2
    simp [exceptIsOk, h0]
  · simp only [exceptIsOk, Bool.false_eq_true, false_iff]
    rintro ⟨-, -, hlt⟩
    omega
  · have hne : bs.length = 32 := by simpa using h1
    have h0 : bytesToBigInt bs ≠ 0 := fun hh => h2 ((isZeroBytes_iff bs).mpr hh)
    simp only [exceptIsOk, true_iff]
    exact ⟨hne, by omega, by omega⟩

theorem createPrivateKey_ok (bs k : List Nat) (h : createPrivateKey bs = .ok k) :
    k = bs ∧ bs.length = 32 ∧ 0 < bytesToBigInt bs ∧ bytesToBigInt bs < EC_N := by
  unfold createPrivateKey at h
  cases ha : assertPrivateKey bs with
  | error e => rw [ha] at h; simp [Except.map] at h
  | ok u =>
    rw [ha] at h
    simp only [Except.map] at h
    have hok : exceptIsOk (assertPrivateKey bs) = true := by rw [ha]; rfl
    exact ⟨(Except.ok.inj h).symm, (assertPrivateKey_ok_iff bs).mp hok⟩

theorem fromPrivateKey_ok (B : CryptoBackend) (k : List Nat) (opts : SignerOptions)
    (s : ECPairSigner) (h : ECPairSigner.fromPrivateKey B k opts = .ok s) :
    s.privateKey = some k ∧ B.isPrivate k = true := by
  unfold ECPairSigner.fromPrivateKey at h
  by_cases hp : B.isPrivate k = true
  · rw [if_pos hp] at h
    cases Except.ok.inj h
    exact ⟨rfl, hp⟩
  · rw [if_neg hp] at h
    cases h

/-! ## Claims C5–C6: `makeRandom` -/

/-- The rejection loop returns the first in-range draw and rejects only draws
failing `backend.isPrivate` (each previous draw was a well-formed 32-byte
buffer that failed `isPrivate`). -/
theorem makeRandomLoop_ok (B : CryptoBackend) (rng : Nat → List Nat) :
    ∀ (fuel i : Nat) (k : List Nat),
      ECPairSigner.makeRandomLoop B rng fuel i = some (.ok k) →
      ∃ j, i ≤ j ∧ k = rng j ∧ B.isPrivate (rng j) = true
        ∧ ∀ m, i ≤ m → m < j → (rng m).length = 32 ∧ B.isPrivate (rng m) = false := by
  intro fuel
  induction fuel with
  | zero => intro i k h; cases h
  | succ fuel ih =>
    intro i k h
    unfold ECPairSigner.makeRandomLoop at h
    split_ifs at h with h1 h2
    · simp at h
    · have hk : k = rng i := (Except.ok.inj (Option.some.inj h)).symm
      exact ⟨i, le_refl i, hk, h2, fun m hm1 hm2 => absurd hm2 (by omega)⟩
    · obtain ⟨j, hj1, hj2, hj3, hj4⟩ := ih (i + 1) k h
      refine ⟨j, by omega, hj2, hj3, fun m hm1 hm2 => ?_⟩
      rcases Nat.eq_or_lt_of_le hm1 with rfl | hlt
      · exact ⟨by simpa using h1, by simpa using h2⟩
      · exact hj4 m (by omega) hm2

/-- C5: a signer returned by `makeRandom` is always backed by a 32-byte
scalar in `[1, n)` — never the zero scalar, never a scalar ≥ n — and when a
caller-supplied random source is used, its result is the first draw passing
`backend.isPrivate`, every earlier 32-byte draw being rejected only for
failing `backend.isPrivate`. -/
theorem claim_C5_makeRandom_rejection (B : CryptoBackend) (opts : RandomSignerOptions)
    (sysRng : Nat → List Nat) (fuel : Nat) (s : ECPairSigner)
    (hres : ECPairSigner.makeRandom B opts sysRng fuel = some (.ok s)) :
    (∃ k, s.privateKey = some k ∧ k.length = 32
      ∧ 0 < bytesToBigInt k ∧ bytesToBigInt k < EC_N)
    ∧ (∀ r, (opts.rng = some r
          ∨ (B.generatePrivateKey = none ∧ opts.rng = none ∧ r = sysRng)) →
        ∃ i, s.privateKey = some (r i) ∧ B.isPrivate (r i) = true
          ∧ ∀ j, j < i → (r j).length = 32 ∧ B.isPrivate (r j) = false) := by
  unfold ECPairSigner.makeRandom at hres
  split at hres
  · rename_i g heq1 heq2
    have hg := Option.some.inj hres
    constructor
    · cases hc : createPrivateKey g with
      | error e =>
        rw [hc] at hg
        exact absurd hg (by exact fun hh => Except.noConfusion hh)
      | ok k =>
        rw [hc, exceptOk_bind] at hg
        obtain ⟨hpk, -⟩ := fromPrivateKey_ok B k _ s hg
        obtain ⟨hk, hl, hp, hn⟩ := createPrivateKey_ok g k hc
        subst hk
        exact ⟨k, hpk, hl, hp, hn⟩
    · intro r hr
      rcases hr with hr | ⟨hgen, -, -⟩
      · rw [heq2] at hr
        cases hr
      · rw [heq1] at hgen
        cases hgen
  · cases hloop : ECPairSigner.makeRandomLoop B (opts.rng.getD sysRng) fuel 0 with
    | none =>
      rw [hloop] at hres
      exact absurd hres (by exact fun hh => Option.noConfusion hh)
    | some res =>
      rw [hloop] at hres
      simp only [Option.map_some'] at hres
      have hr := Option.some.inj hres
      cases res with
      | error e => exact absurd hr (by exact fun hh => Except.noConfusion hh)
      | ok bs =>
        rw [exceptOk_bind] at hr
        cases hc : createPrivateKey bs with
        | error e =>
          rw [hc] at hr
          exact absurd hr (by exact fun hh => Except.noConfusion hh)
        | ok k =>
          rw [hc, exceptOk_bind] at hr
          obtain ⟨hpk, -⟩ := fromPrivateKey_ok B k _ s hr
          obtain ⟨hk, hl, hp, hn⟩ := createPrivateKey_ok bs k hc
          subst hk
          obtain ⟨j, -, hj2, hj3, hj4⟩ :=
            makeRandomLoop_ok B (opts.rng.getD sysRng) fuel 0 k hloop
          constructor
          · exact ⟨k, hpk, hl, hp, hn⟩
          · intro r hr'
            have hrr : opts.rng.getD sysRng = r := by
              rcases hr' with hr' | ⟨-, hr', hr''⟩
              · rw [hr']; rfl
              · rw [hr', hr'']; rfl
            rw [hrr] at hj2 hj3 hj4
            exact ⟨j, hj2 ▸ hpk, hj3, fun m hm => hj4 m (Nat.zero_le m) hm⟩

/-- A backend whose `isPrivate` is the real secp256k1 range check (with the
true curve order) and which exposes no `generatePrivateKey`. -/
def rangeBackend : CryptoBackend :=
  { B7 with
    isPrivate := fun bs =>
      decide (bs.length = 32) && decide (0 < bytesToBigInt bs)
        && decide (bytesToBigInt bs < EC_N)
    generatePrivateKey := none }

/-- The scripted random source of the claim: `0`, then `n`, then `n - 1`. -/
def scriptedRng : Nat → List Nat := fun i =>
  if i = 0 then bigintToBytes32 0
  else if i = 1 then bigintToBytes32 EC_N
  else bigintToBytes32 (EC_N - 1)

def scriptedOptions : RandomSignerOptions :=
  { compressed := none, network := none, rng := some scriptedRng }

def scriptedResult : ECPairSigner :=
  ECPairSigner.make rangeBackend (some (bigintToBytes32 (EC_N - 1))) none
    scriptedOptions.toSignerOptions

/-- Witness for C5: the scripted source `0, n, n-1` resolves to a signer
whose private key is `n - 1`. -/
theorem claim_C5_witness :
    (∃ k, scriptedResult.privateKey = some k ∧ k.length = 32
      ∧ 0 < bytesToBigInt k ∧ bytesToBigInt k < EC_N)
    ∧ scriptedResult.privateKey = some (bigintToBytes32 (EC_N - 1)) :=
  ⟨(claim_C5_makeRandom_rejection rangeBackend scriptedOptions scriptedRng 10
      scriptedResult (by rfl)).1,
    rfl⟩

/-- C6 (amended): `makeRandom` obtains the key directly from
`generatePrivateKey` only when the backend exposes it **and the caller
supplied no `rng` option**; whenever a caller rng is supplied the
rejection-sampling loop over that rng is used, even if the backend exposes
`generatePrivateKey`. -/
theorem claim_C6_makeRandom_source_selection (B : CryptoBackend)
    (opts : RandomSignerOptions) (sysRng : Nat → List Nat) (fuel : Nat)
    (g : List Nat) :
    (B.generatePrivateKey = some g → opts.rng = none →
      ECPairSigner.makeRandom B opts sysRng fuel
        = some (createPrivateKey g >>= fun k =>
            ECPairSigner.fromPrivateKey B k opts.toSignerOptions))
    ∧ (∀ r, opts.rng = some r →
      ECPairSigner.makeRandom B opts sysRng fuel
        = (ECPairSigner.makeRandomLoop B r fuel 0).map (fun res =>
            res >>= fun privateKeyBytes =>
              createPrivateKey privateKeyBytes >>= fun k =>
                ECPairSigner.fromPrivateKey B k opts.toSignerOptions)) := by
  constructor
  · intro hg hr
    unfold ECPairSigner.makeRandom
    rw [hg, hr]
  · intro r hr
    unfold ECPairSigner.makeRandom
    rw [hr]
    cases hg : B.generatePrivateKey with
    | none => rfl
    | some g' => rfl

/-- A backend exposing `generatePrivateKey` (which would return the scalar 5). -/
def genBackend : CryptoBackend :=
  { rangeBackend with generatePrivateKey := some (bigintToBytes32 5) }

def fixedRng : Nat → List Nat := fun _ => bigintToBytes32 3

def genOptions : RandomSignerOptions :=
  { compressed := none, network := none, rng := some fixedRng }

def genResult : ECPairSigner :=
  ECPairSigner.make genBackend (some (bigintToBytes32 3)) none genOptions.toSignerOptions

/-- Witness for C6: with `generatePrivateKey` present and no caller rng, the
key is obtained from `generatePrivateKey` directly. -/
theorem claim_C6_witness :
    ECPairSigner.makeRandom genBackend
        { compressed := none, network := none, rng := none } (fun _ => []) 10
      = some (createPrivateKey (bigintToBytes32 5) >>= fun k =>
          ECPairSigner.fromPrivateKey genBackend k
            ({ compressed := none, network := none, rng := none } :
              RandomSignerOptions).toSignerOptions) :=
  (claim_C6_makeRandom_source_selection genBackend
    { compressed := none, network := none, rng := none } (fun _ => []) 10
    (bigintToBytes32 5)).1 rfl rfl

/-- Counterexample to C6 as stated: the backend exposes `generatePrivateKey`
(returning 5), yet with a caller-supplied rng the returned signer's key is
the rng draw 3, not 5 — the key was *not* obtained from
`generatePrivateKey`. -/
theorem claim_C6_counterexample :
    genBackend.generatePrivateKey = some (bigintToBytes32 5)
    ∧ ECPairSigner.makeRandom genBackend genOptions (fun _ => []) 10
        = some (.ok genResult)
    ∧ genResult.privateKey = some (bigintToBytes32 3)
    ∧ bigintToBytes32 3 ≠ bigintToBytes32 5 :=
  ⟨rfl, rfl, rfl, by decide⟩

/-! ## Claim C7: `fromWIF` network-version matching -/

theorem createPrivateKey_error_msgs (bs : List Nat) (e : String)
    (h : createPrivateKey bs = .error e) :
    e = "assertPrivateKey: expected 32 bytes" ∨ e = "assertPrivateKey: key is zero"
      ∨ e = "assertPrivateKey: key not in range [1, n)" := by
  unfold createPrivateKey assertPrivateKey at h
  split_ifs at h with h1 h2 h3
  · simp only [Except.map] at h
    exact Or.inl (Except.error.inj h).symm
  · simp only [Except.map] at h
    exact Or.inr (Or.inl (Except.error.inj h).symm)
  · simp only [Except.map] at h
    exact Or.inr (Or.inr (Except.error.inj h).symm)
  · simp only [Except.map] at h
    cases h

theorem exceptBind_pure_eq_map {α β : Type} (e : Except String α) (f : α → β) :
    (e >>= fun a => Except.ok (f a)) = e.map f := by
  cases e <;> rfl

/-- C7: for a successfully decoded WIF payload, `decodeWIF` with a network
list fails with the unknown-network-version error exactly when no entry's
`wif` byte matches the decoded version, and otherwise uses the first matching
entry; with a single network it fails with the invalid-network-version error
exactly when the version differs; and `fromWIF` delegates a successful decode
to `fromPrivateKey` with the decoded key, compressed flag, and matched
network. -/
theorem claim_C7_fromWIF_version_matching (B : CryptoBackend) (decoded : WifRaw)
    (nets : List Network) (net : Network) (dn : NetworkArg) :
    (decodeWIF decoded (.list nets) = .error "Unknown network version"
      ↔ nets.find? (fun nw => nw.wif == decoded.version) = none)
    ∧ (∀ m, nets.find? (fun nw => nw.wif == decoded.version) = some m →
        decodeWIF decoded (.list nets)
          = (createPrivateKey decoded.privateKey).map
              (fun k => ⟨k, decoded.compressed, m⟩))
    ∧ (decodeWIF decoded (.single net) = .error "Invalid network version"
      ↔ decoded.version ≠ net.wif)
    ∧ (∀ r, decodeWIF decoded dn = .ok r →
        ECPairSigner.fromWIF B decoded (some dn)
          = ECPairSigner.fromPrivateKey B r.privateKey
              { compressed := some r.compressed, network := some r.network }) := by
  refine ⟨?_, ?_, ?_, ?_⟩
  · unfold decodeWIF
    cases hfind : nets.find? (fun nw => nw.wif == decoded.version) with
    | none => simp [hfind]
    | some m =>
      simp only [hfind]
      constructor
      · intro h
        rw [exceptBind_pure_eq_map] at h
        cases hc : createPrivateKey decoded.privateKey with
        | ok k =>
          rw [hc] at h
          simp [Except.map] at h
        | error e =>
          rw [hc] at h
          simp only [Except.map] at h
          have he := Except.error.inj h
          rcases createPrivateKey_error_msgs _ _ hc with h' | h' | h' <;>
            rw [h'] at he <;> exact absurd he (by decide)
      · intro h; cases h
  · intro m hfind
    unfold decodeWIF
    simp only [hfind]
    exact exceptBind_pure_eq_map _ _
  · by_cases hv : decoded.version = net.wif
    · have hb : (decoded.version != net.wif) = false := by simpa using hv
      simp only [decodeWIF, hb, Bool.false_eq_true, if_false]
      constructor
      · intro h
        rw [exceptBind_pure_eq_map] at h
        cases hc : createPrivateKey decoded.privateKey with
        | ok k =>
          rw [hc] at h
          simp [Except.map] at h
        | error e =>
          rw [hc] at h
          simp only [Except.map] at h
          have he := Except.error.inj h
          rcases createPrivateKey_error_msgs _ _ hc with h' | h' | h' <;>
            rw [h'] at he <;> exact absurd he (by decide)
      · intro h; exact absurd hv h
    · have hb : (decoded.version != net.wif) = true := by simpa using hv
      simp only [decodeWIF, hb, if_true]
      simp [hv]
  · intro r hr
    unfold ECPairSigner.fromWIF
    show (decodeWIF decoded ((some dn).getD (.single networks.bitcoin))).bind _ = _
    rw [show ((some dn).getD (.single networks.bitcoin)) = dn from rfl, hr]
    rfl

/-- Witness for C7: version byte `0xef` against the list
`[bitcoin, testnet]` selects `testnet` (the first match), and a successful
single-network decode delegates to `fromPrivateKey`. -/
theorem claim_C7_witness :
    decodeWIF ⟨0xef, bigintToBytes32 1, true⟩ (.list [networks.bitcoin, networks.testnet])
      = (createPrivateKey (bigintToBytes32 1)).map
          (fun k => ⟨k, true, networks.testnet⟩)
    ∧ ECPairSigner.fromWIF B7 ⟨0xef, bigintToBytes32 1, true⟩
        (some (.single networks.testnet))
      = ECPairSigner.fromPrivateKey B7 (bigintToBytes32 1)
          { compressed := some true, network := some networks.testnet } := by
  constructor
  · exact (claim_C7_fromWIF_version_matching B7 ⟨0xef, bigintToBytes32 1, true⟩
      [networks.bitcoin, networks.testnet] networks.bitcoin
      (.single networks.testnet)).2.1 networks.testnet (by rfl)
  · exact (claim_C7_fromWIF_version_matching B7 ⟨0xef, bigintToBytes32 1, true⟩
      [networks.bitcoin, networks.testnet] networks.bitcoin
      (.single networks.testnet)).2.2.2 ⟨bigintToBytes32 1, true, networks.testnet⟩
      (by rfl)

/-! ## Claim C8: PrivateKey validation raises-iff -/

/-- C8: `createPrivateKey` succeeds (does not throw) exactly on 32-byte
buffers whose value lies in `(0, n)` — it rejects the zero key and any value
≥ the curve order — and `isPrivateKey` returns `true` exactly on the inputs
on which `createPrivateKey` does not throw. -/
theorem claim_C8_privateKey_validation (value : List Nat) :
    (exceptIsOk (createPrivateKey value) = true
      ↔ (value.length = 32 ∧ 0 < bytesToBigInt value ∧ bytesToBigInt value < EC_N))
    ∧ isPrivateKey value = exceptIsOk (createPrivateKey value) := by
  have h1 : exceptIsOk (createPrivateKey value) = exceptIsOk (assertPrivateKey value) := by
    unfold createPrivateKey
    cases assertPrivateKey value <;> rfl
  constructor
  · rw [h1]; exact assertPrivateKey_ok_iff value
  · rw [h1]
    unfold isPrivateKey assertPrivateKey
    split_ifs with ha hb hc
    · rfl
    · rfl
    · simp only [exceptIsOk]
      exact decide_eq_false (by omega)
    · simp only [exceptIsOk]
      exact decide_eq_true (by omega)

/-- Witness for C8 is not required (no hypotheses), but the concrete boundary
inputs of the spec are exercised here: the zero key and the order `n` are
rejected, `n - 1` is accepted. -/
theorem createPrivateKey_boundary_check :
    exceptIsOk (createPrivateKey (bigintToBytes32 0)) = false
    ∧ exceptIsOk (createPrivateKey (bigintToBytes32 EC_N)) = false
    ∧ exceptIsOk (createPrivateKey (bigintToBytes32 (EC_N - 1))) = true
    ∧ isPrivateKey (bigintToBytes32 0) = false
    ∧ isPrivateKey (bigintToBytes32 EC_N) = false
    ∧ isPrivateKey (bigintToBytes32 (EC_N - 1)) = true :=
  ⟨by decide, by decide, by decide, by decide, by decide, by decide⟩

/-! ## Claim C9: public-key normalization at construction -/

/-- C9: a signer built by `fromPublicKey` stores
`backend.pointCompress(input, compressed)` as its public key; in particular,
with the default `compressed = true`, a 65-byte uncompressed input yields a
33-byte compressed stored key that differs from the input buffer. -/
theorem claim_C9_fromPublicKey_normalization
    (M : SecpModel) (B : CryptoBackend) (hB : Conformant M B)
    (pub : List Nat) (opts : SignerOptions) (s : ECPairSigner)
    (hs : ECPairSigner.fromPublicKey B pub opts = .ok s) :
    s.publicKeyE = .ok (B.pointCompress pub (opts.compressed.getD true))
    ∧ (∀ d : ZMod M.n, d ≠ 0 → pub = M.enc d false → opts.compressed.getD true = true →
        s.publicKeyE = .ok (M.enc d true)
        ∧ (M.enc d true).length = 33 ∧ pub.length = 65 ∧ M.enc d true ≠ pub) := by
  have hmain : s.publicKeyE = .ok (B.pointCompress pub (opts.compressed.getD true)) := by
    unfold ECPairSigner.fromPublicKey at hs
    by_cases hp : B.isPoint pub = true
    · rw [if_pos hp] at hs
      cases Except.ok.inj hs
      simp only [ECPairSigner.publicKeyE, ECPairSigner.make, Option.map_some']
    · rw [if_neg hp] at hs
      cases hs
  refine ⟨hmain, fun d hd hpub hc => ?_⟩
  have hlen33 : (M.enc d true).length = 33 := by
    simp [SecpModel.enc, M.hxlen d hd]
  have hlen65 : pub.length = 65 := by
    rw [hpub]
    simp [SecpModel.enc, M.hxlen d hd, M.hyblen d hd]
  have hcompress : s.publicKeyE = .ok (M.enc d true) := by
    rw [hmain, hpub, hc, hB.pointCompress_eq d false true hd]
  refine ⟨hcompress, hlen33, hlen65, fun he => ?_⟩
  rw [← he] at hlen65
  rw [hlen33] at hlen65
  cases hlen65

/-- Witness for C9: over the order-7 model, a 65-byte uncompressed input is
stored as its 33-byte compressed form, which differs from the input. -/
theorem claim_C9_witness :
    (ECPairSigner.make B7 none (some (M7.enc 1 false)) noOptions).publicKeyE
        = .ok (B7.pointCompress (M7.enc 1 false) (noOptions.compressed.getD true))
    ∧ ((ECPairSigner.make B7 none (some (M7.enc 1 false)) noOptions).publicKeyE
          = .ok (M7.enc 1 true)
      ∧ (M7.enc 1 true).length = 33 ∧ (M7.enc 1 false).length = 65
      ∧ M7.enc 1 true ≠ M7.enc 1 false) := by
  have h := claim_C9_fromPublicKey_normalization M7 B7 conformant_M7_B7
    (M7.enc 1 false) noOptions
    (ECPairSigner.make B7 none (some (M7.enc 1 false)) noOptions) (by rfl)
  exact ⟨h.1, h.2 1 (by decide) rfl rfl⟩

/-! ## Claim C10: HdDerivation is never granted -/

/-- C10: no `ECPairSigner`, however constructed and whatever optional
operations its backend exposes, ever has the `HdDerivation` capability. -/
theorem claim_C10_no_hd_derivation (s : ECPairSigner) :
    SignerCapability.HdDerivation ∉ s.capabilities
    ∧ s.hasCapability SignerCapability.HdDerivation = false := by
  have hmem : SignerCapability.HdDerivation ∉ s.capabilities := by
    unfold ECPairSigner.capabilities
    cases hp : s.privateKey <;>
      cases hsch : s.backend.signSchnorr <;>
        cases hver : s.backend.verifySchnorr <;>
          simp [SignerCapability.EcdsaSign, SignerCapability.EcdsaVerify,
            SignerCapability.SchnorrSign, SignerCapability.SchnorrVerify,
            SignerCapability.PrivateKeyExport, SignerCapability.PublicKeyTweak,
            SignerCapability.HdDerivation]
  refine ⟨hmem, ?_⟩
  unfold ECPairSigner.hasCapability
  rw [List.contains_eq_any_beq]
  rw [List.any_eq_false]
  intro x hx
  simp only [beq_iff_eq]
  intro hxx
  exact hmem (hxx ▸ hx)

/-! ## Claim C3: eager backend conformance -/

/-- C3 (amended): signer construction never runs the conformance battery:
`fromPrivateKey` succeeds for any backend whose `isPrivate` accepts the key,
even for a backend that fails `verifyCryptoBackend`.  The battery is exposed
as a separately callable function only. -/
theorem claim_C3_no_eager_conformance (B : CryptoBackend) (k : List Nat)
    (opts : SignerOptions)
    (hk : B.isPrivate k = true) (hbad : verifyCryptoBackend B = false) :
    ECPairSigner.fromPrivateKey B k opts
      = .ok (ECPairSigner.make B (some k) none opts) := by
  simp [ECPairSigner.fromPrivateKey, hk]

/-- A backend that fails the very first known-answer vector of the
conformance battery (its `isPoint` rejects the generator) while having a
correct `isPrivate`. -/
def badBackend : CryptoBackend :=
  { rangeBackend with isPoint := fun _ => false }

/-- Witness for C3 (amended): a signer is produced from `badBackend`. -/
theorem claim_C3_witness :
    ECPairSigner.fromPrivateKey badBackend (bigintToBytes32 1) noOptions
      = .ok (ECPairSigner.make badBackend (some (bigintToBytes32 1)) none noOptions) :=
  claim_C3_no_eager_conformance badBackend (bigintToBytes32 1) noOptions
    (by decide) (by decide)

/-- Counterexample to C3 as stated: `badBackend` fails the conformance
battery, yet `fromPrivateKey` constructs a signer from it — so a signer *is*
produced from a backend that has not passed the check. -/
theorem claim_C3_counterexample :
    verifyCryptoBackend badBackend = false
    ∧ exceptIsOk (ECPairSigner.fromPrivateKey badBackend (bigintToBytes32 1) noOptions)
        = true :=
  ⟨by decide, by decide⟩

end ECPair
